import Mathlib

/-!
Verification of the neobench orchestrator (src/main.go) against its specification.

Shallow embedding conventions:
* Go `float64` values (worker rates, the `--rate` flag, float defines) are modelled as
  exact rationals (`ℚ`); the concrete inputs used in the theorems below are small values
  on which `float64` arithmetic is exact or rounds to the same truncation result.
* Go `time.Time` timestamps are modelled as integers, `time.Duration` as an integer
  nanosecond count.
* Go maps are modelled as association lists observed only through `mapGet` (Go map reads)
  and written through `mapSet` (Go map assignment: update the key if present, else insert).
  Go's nondeterministic map iteration order corresponds to the list order of the
  association list; theorems that depend on an order quantify over it.
* The hdrhistogram library (an external dependency) is modelled from the spec:
  a Histogram is the multiset of its recorded samples, `Merge` is multiset union and
  `Import (Export h)` is a copy, i.e. the identity on the value.
* Channels delivering one `WorkerResult` per worker are modelled as the list of results
  in arrival order (the order is nondeterministic, so theorems quantify over the list).
-/

namespace Neobench

/-- Go map read `m[k]`: the value stored at the first occurrence of key `k`, if any. -/
def mapGet {α : Type} : List (String × α) → String → Option α
  | [], _ => none
  | (n, v) :: rest, k => if n = k then some v else mapGet rest k

/-- Go map assignment `m[k] = v`: replace the first binding of `k`, or append a new one. -/
def mapSet {α : Type} : List (String × α) → String → α → List (String × α)
  | [], k, v => [(k, v)]
  | (n, w) :: rest, k, v => if n = k then (k, v) :: rest else (n, w) :: mapSet rest k v

/-- neobench.FailureGroup: a bucket of failures sharing an error signature
(src/main.go usage at lines 253-263); `count` is the number of failures and
`firstFailure` the timestamp of the first one (modelled as an integer). -/
structure FailureGroup where
  count : Int
  firstFailure : Int
deriving Repr, DecidableEq

/-- neobench.WorkerResult as consumed by collectResults (src/main.go lines 238-264):
succeeded/failed counters, achieved rate, the worker's latency histogram
(modelled as the multiset of recorded samples), its failure-group map, and the
optional fatal error (modelled as the error message). -/
structure WorkerResult where
  succeeded : Int
  failed : Int
  rate : ℚ
  latencies : Multiset Nat
  failedByErrorGroup : List (String × FailureGroup)
  error : Option String
deriving DecidableEq

/-- neobench.Result as built by collectResults (src/main.go lines 232-272). -/
structure Result where
  scenario : String
  totalSucceeded : Int
  totalFailed : Int
  totalRate : ℚ
  totalLatencies : Option (Multiset Nat)
  failedByErrorGroup : List (String × FailureGroup)
  workers : List WorkerResult
deriving DecidableEq

/-- Merging one worker entry into `total.FailedByErrorGroup` (src/main.go lines 254-262):
if the key exists the counts are added and the existing `FirstFailure` is kept,
otherwise the worker's group is inserted as is. -/
def mergeGroup (total : List (String × FailureGroup)) (name : String)
    (group : FailureGroup) : List (String × FailureGroup) :=
  match mapGet total name with
  | some existing =>
      mapSet total name { count := existing.count + group.count
                          firstFailure := existing.firstFailure }
  | none => mapSet total name group

/-- The loop `for name, group := range res.FailedByErrorGroup` (src/main.go lines 253-263),
iterating the worker's map in the given order. -/
def mergeWorkerGroups (total : List (String × FailureGroup))
    (groups : List (String × FailureGroup)) : List (String × FailureGroup) :=
  groups.foldl (fun t p => mergeGroup t p.1 p.2) total

/-- The mutable state of the result-processing loop in collectResults
(src/main.go lines 238-264): the combined histogram (nil until the first
non-fatal worker is seen) and the running totals accumulated into `total`. -/
structure CollectAcc where
  combined : Option (Multiset Nat)
  totalRate : ℚ
  totalSucceeded : Int
  totalFailed : Int
  groups : List (String × FailureGroup)
deriving DecidableEq

/-- One iteration of the `for _, res := range results` loop of collectResults
(src/main.go lines 239-264): a worker with a fatal error is skipped (`continue`);
otherwise its histogram is copied (first worker) or merged in, the totals are
accumulated, and its failure groups are merged. -/
def collectStep (acc : CollectAcc) (res : WorkerResult) : CollectAcc :=
  match res.error with
  | some _ => acc
  | none =>
      { combined :=
          match acc.combined with
          | none => some res.latencies
          | some h => some (h + res.latencies)
        totalRate := acc.totalRate + res.rate
        totalSucceeded := acc.totalSucceeded + res.succeeded
        totalFailed := acc.totalFailed + res.failed
        groups := mergeWorkerGroups acc.groups res.failedByErrorGroup }

/-- The initial loop state of collectResults: no combined histogram, zero totals,
and the fresh `make(map[string]neobench.FailureGroup)` (src/main.go lines 232-238). -/
def collectInit : CollectAcc :=
  { combined := none, totalRate := 0, totalSucceeded := 0, totalFailed := 0, groups := [] }

/-- collectResults (src/main.go lines 225-273) on the list of worker results read from
the channel, in arrival order: process every result, then fail with the aggregate
error when no combined histogram exists, else return the aggregate Result (whose
`Workers` field holds every result, fatal ones included). -/
def collectResults (scenario : String) (results : List WorkerResult) :
    Except String Result :=
  let acc := results.foldl collectStep collectInit
  match acc.combined with
  | none => Except.error "all workers failed"
  | some h =>
      Except.ok
        { scenario := scenario
          totalSucceeded := acc.totalSucceeded
          totalFailed := acc.totalFailed
          totalRate := acc.totalRate
          totalLatencies := some h
          failedByErrorGroup := acc.groups
          workers := results }

/-- The latency histograms of the workers that ended without a fatal error,
in arrival order. -/
def nfLatencies (results : List WorkerResult) : List (Multiset Nat) :=
  (results.filter fun r => r.error.isNone).map WorkerResult.latencies

/-- All failure-group entries recorded under key `k` in the given maps, in order. -/
def keyEntries (k : String) (groups : List (String × FailureGroup)) : List FailureGroup :=
  groups.filterMap fun p => if p.1 = k then some p.2 else none

/-- Folding a list of same-key failure groups the way collectResults does:
counts add up, the first entry fixes `firstFailure`. -/
def combineEntries (o : Option FailureGroup) : List FailureGroup → Option FailureGroup
  | [] => o
  | g :: gs =>
      match o with
      | none => combineEntries (some g) gs
      | some e => combineEntries (some { count := e.count + g.count
                                         firstFailure := e.firstFailure }) gs

lemma nfLatencies_nil : nfLatencies [] = [] := rfl

lemma nfLatencies_cons_fatal (r : WorkerResult) (rs : List WorkerResult)
    (h : r.error.isNone = false) : nfLatencies (r :: rs) = nfLatencies rs := by
  simp [nfLatencies, List.filter_cons, h]

lemma nfLatencies_cons_ok (r : WorkerResult) (rs : List WorkerResult)
    (h : r.error = none) : nfLatencies (r :: rs) = r.latencies :: nfLatencies rs := by
  simp [nfLatencies, List.filter_cons, h]

lemma collectStep_fatal (acc : CollectAcc) (r : WorkerResult) (e : String)
    (h : r.error = some e) : collectStep acc r = acc := by
  simp [collectStep, h]

/-- Invariant of the result-processing loop for the combined histogram. -/
lemma foldl_collectStep_combined (results : List WorkerResult) (acc : CollectAcc) :
    (results.foldl collectStep acc).combined =
      match acc.combined with
      | some h => some (h + (nfLatencies results).sum)
      | none =>
          if nfLatencies results = [] then none else some (nfLatencies results).sum := by
  induction results generalizing acc with
  | nil =>
      cases h : acc.combined <;> simp [nfLatencies_nil, h]
  | cons r rs ih =>
      rw [List.foldl_cons]
      cases hr : r.error with
      | some e =>
          rw [collectStep_fatal acc r e hr, ih,
            nfLatencies_cons_fatal r rs (by simp [hr])]
      | none =>
          have hnf := nfLatencies_cons_ok r rs hr
          have hcs : (collectStep acc r).combined =
              match acc.combined with
              | none => some r.latencies
              | some h => some (h + r.latencies) := by
            simp [collectStep, hr]
          rw [ih, hcs]
          cases h : acc.combined with
          | none => simp [hnf, List.sum_cons]
          | some hm => simp [hnf, List.sum_cons, add_assoc]

/-- Invariant of the result-processing loop for the three scalar totals. -/
lemma foldl_collectStep_totals (results : List WorkerResult) (acc : CollectAcc) :
    (results.foldl collectStep acc).totalSucceeded
        = acc.totalSucceeded
          + (((results.filter fun r => r.error.isNone).map WorkerResult.succeeded).sum)
    ∧ (results.foldl collectStep acc).totalFailed
        = acc.totalFailed
          + (((results.filter fun r => r.error.isNone).map WorkerResult.failed).sum)
    ∧ (results.foldl collectStep acc).totalRate
        = acc.totalRate
          + (((results.filter fun r => r.error.isNone).map WorkerResult.rate).sum) := by
  induction results generalizing acc with
  | nil => simp
  | cons r rs ih =>
      rw [List.foldl_cons]
      cases hr : r.error with
      | some e =>
          rw [collectStep_fatal acc r e hr]
          have hf : (r :: rs).filter (fun r => r.error.isNone)
              = rs.filter fun r => r.error.isNone := by
            simp [List.filter_cons, hr]
          rw [hf]; exact ih acc
      | none =>
          have hf : (r :: rs).filter (fun r => r.error.isNone)
              = r :: rs.filter fun r => r.error.isNone := by
            simp [List.filter_cons, hr]
          have hs : (collectStep acc r).totalSucceeded = acc.totalSucceeded + r.succeeded ∧
              (collectStep acc r).totalFailed = acc.totalFailed + r.failed ∧
              (collectStep acc r).totalRate = acc.totalRate + r.rate := by
            refine ⟨?_, ?_, ?_⟩ <;> simp [collectStep, hr]
          obtain ⟨ih1, ih2, ih3⟩ := ih (collectStep acc r)
          refine ⟨?_, ?_, ?_⟩
          · rw [hf, ih1, hs.1]; simp [List.sum_cons, add_assoc]
          · rw [hf, ih2, hs.2.1]; simp [List.sum_cons, add_assoc]
          · rw [hf, ih3, hs.2.2]; simp [List.sum_cons, add_assoc]

/-- The workers list never changes during the fold (it is fixed before the loop). -/
lemma foldl_collectStep_groups_aux (results : List WorkerResult) (acc : CollectAcc) :
    (results.foldl collectStep acc).groups
      = mergeWorkerGroups acc.groups
          (((results.filter fun r => r.error.isNone).flatMap
              WorkerResult.failedByErrorGroup)) := by
  induction results generalizing acc with
  | nil => simp [mergeWorkerGroups]
  | cons r rs ih =>
      rw [List.foldl_cons]
      cases hr : r.error with
      | some e =>
          rw [collectStep_fatal acc r e hr, ih]
          simp [List.filter_cons, hr]
      | none =>
          have hg : (collectStep acc r).groups
              = mergeWorkerGroups acc.groups r.failedByErrorGroup := by
            simp [collectStep, hr]
          rw [ih, hg]
          simp [List.filter_cons, hr, mergeWorkerGroups, List.foldl_append]

/-- Unpacking a successful collectResults call: the combined histogram exists and the
Result fields are the final loop state. -/
lemma collectResults_ok_elim (scenario : String) (results : List WorkerResult)
    (r : Result) (h : collectResults scenario results = Except.ok r) :
    ∃ hm, (results.foldl collectStep collectInit).combined = some hm ∧
      r = { scenario := scenario
            totalSucceeded := (results.foldl collectStep collectInit).totalSucceeded
            totalFailed := (results.foldl collectStep collectInit).totalFailed
            totalRate := (results.foldl collectStep collectInit).totalRate
            totalLatencies := some hm
            failedByErrorGroup := (results.foldl collectStep collectInit).groups
            workers := results } := by
  have h2 : (match (results.foldl collectStep collectInit).combined with
      | none => (Except.error "all workers failed" : Except String Result)
      | some hm =>
          Except.ok
            { scenario := scenario
              totalSucceeded := (results.foldl collectStep collectInit).totalSucceeded
              totalFailed := (results.foldl collectStep collectInit).totalFailed
              totalRate := (results.foldl collectStep collectInit).totalRate
              totalLatencies := some hm
              failedByErrorGroup := (results.foldl collectStep collectInit).groups
              workers := results }) = Except.ok r := h
  cases hc : (results.foldl collectStep collectInit).combined with
  | none => rw [hc] at h2; exact absurd h2 (by simp)
  | some hm =>
      rw [hc] at h2
      exact ⟨hm, rfl, by injection h2 with h3; exact h3.symm⟩

/-- collectResults written with its loop state exposed (pure unfolding of the `let`). -/
lemma collectResults_eq_match (scenario : String) (results : List WorkerResult) :
    collectResults scenario results =
      (match (results.foldl collectStep collectInit).combined with
        | none => (Except.error "all workers failed" : Except String Result)
        | some hm =>
            Except.ok
              { scenario := scenario
                totalSucceeded := (results.foldl collectStep collectInit).totalSucceeded
                totalFailed := (results.foldl collectStep collectInit).totalFailed
                totalRate := (results.foldl collectStep collectInit).totalRate
                totalLatencies := some hm
                failedByErrorGroup := (results.foldl collectStep collectInit).groups
                workers := results }) := rfl

lemma collectResults_combined_init (results : List WorkerResult) :
    (results.foldl collectStep collectInit).combined =
      if nfLatencies results = [] then none else some (nfLatencies results).sum := by
  simpa [collectInit] using foldl_collectStep_combined results collectInit

lemma nfLatencies_eq_nil_iff (results : List WorkerResult) :
    nfLatencies results = [] ↔ ∀ r ∈ results, r.error ≠ none := by
  simp [nfLatencies, List.filter_eq_nil_iff, Option.isNone_iff_eq_none]

/-- C1: collectResults fails with the aggregate error if and only if every worker's
result carries a fatal error; as soon as at least one worker ended without a fatal
error, an aggregate Result is returned with no error. -/
theorem collectResults_fails_iff_all_fatal (scenario : String)
    (results : List WorkerResult) :
    ((∃ e, collectResults scenario results = Except.error e)
        ↔ ∀ r ∈ results, r.error ≠ none)
    ∧ ((∃ res, collectResults scenario results = Except.ok res)
        ↔ ∃ r ∈ results, r.error = none) := by
  rw [collectResults_eq_match scenario results, collectResults_combined_init results]
  by_cases hnil : nfLatencies results = []
  · rw [if_pos hnil]
    have hall := (nfLatencies_eq_nil_iff results).mp hnil
    constructor
    · exact ⟨fun _ => hall, fun _ => ⟨_, rfl⟩⟩
    · constructor
      · rintro ⟨res, hres⟩; exact absurd hres (by simp)
      · rintro ⟨r, hr, hr2⟩; exact absurd hr2 (hall r hr)
  · rw [if_neg hnil]
    have hsome : ∃ r ∈ results, r.error = none := by
      by_contra hno
      push_neg at hno
      exact hnil ((nfLatencies_eq_nil_iff results).mpr fun r hr => hno r hr)
    constructor
    · constructor
      · rintro ⟨e, he⟩; exact absurd he (by simp)
      · intro hall
        exact absurd hnil (by simp [(nfLatencies_eq_nil_iff results).mpr hall])
    · exact ⟨fun _ => hsome, fun _ => ⟨_, rfl⟩⟩

/-- The combined histogram of a successful aggregation is the sum (multiset union) of
the non-fatal workers' histograms. -/
lemma collectResults_totalLatencies (scenario : String) (results : List WorkerResult)
    (r : Result) (h : collectResults scenario results = Except.ok r) :
    r.totalLatencies = some ((nfLatencies results).sum) := by
  obtain ⟨hm, hcomb, hr⟩ := collectResults_ok_elim scenario results r h
  rw [collectResults_combined_init results] at hcomb
  by_cases hnil : nfLatencies results = []
  · rw [if_pos hnil] at hcomb; exact absurd hcomb (by simp)
  · rw [if_neg hnil] at hcomb
    subst hr
    simpa using hcomb.symm

/-- C3: the aggregate totals sum the succeeded counts, failed counts and rates of
exactly the workers without a fatal error, while the raw Workers list retains every
WorkerResult, the fatal ones included. -/
theorem collectResults_totals_nonfatal (scenario : String) (results : List WorkerResult)
    (r : Result) (h : collectResults scenario results = Except.ok r) :
    r.totalSucceeded
        = (((results.filter fun x => x.error.isNone).map WorkerResult.succeeded).sum)
    ∧ r.totalFailed
        = (((results.filter fun x => x.error.isNone).map WorkerResult.failed).sum)
    ∧ r.totalRate
        = (((results.filter fun x => x.error.isNone).map WorkerResult.rate).sum)
    ∧ r.workers = results := by
  obtain ⟨hm, hcomb, hr⟩ := collectResults_ok_elim scenario results r h
  obtain ⟨h1, h2, h3⟩ := foldl_collectStep_totals results collectInit
  refine ⟨?_, ?_, ?_, ?_⟩
  · rw [hr]
    show (results.foldl collectStep collectInit).totalSucceeded = _
    rw [h1]; simp [collectInit]
  · rw [hr]
    show (results.foldl collectStep collectInit).totalFailed = _
    rw [h2]; simp [collectInit]
  · rw [hr]
    show (results.foldl collectStep collectInit).totalRate = _
    rw [h3]; simp [collectInit]
  · rw [hr]

/-- A worker that crashed with a fatal connection error, used as concrete input. -/
def wFatalC3 : WorkerResult :=
  { succeeded := 0, failed := 0, rate := 0, latencies := 0
    failedByErrorGroup := [], error := some ("boom") }

/-- A worker that completed normally, used as concrete input. -/
def wOkC3 : WorkerResult :=
  { succeeded := 4, failed := 1, rate := 0, latencies := {9}
    failedByErrorGroup := [("e", ⟨1, 42⟩)], error := none }

/-- The aggregate Result produced for `[wFatalC3, wOkC3]`. -/
def rC3 : Result :=
  { scenario := "s", totalSucceeded := 4, totalFailed := 1, totalRate := 0
    totalLatencies := some {9}, failedByErrorGroup := [("e", ⟨1, 42⟩)]
    workers := [wFatalC3, wOkC3] }

theorem collectResults_totals_nonfatal_witness :
    rC3.totalSucceeded
        = ((([wFatalC3, wOkC3].filter fun x => x.error.isNone).map
            WorkerResult.succeeded).sum)
    ∧ rC3.totalFailed
        = ((([wFatalC3, wOkC3].filter fun x => x.error.isNone).map
            WorkerResult.failed).sum)
    ∧ rC3.totalRate
        = ((([wFatalC3, wOkC3].filter fun x => x.error.isNone).map
            WorkerResult.rate).sum)
    ∧ rC3.workers = [wFatalC3, wOkC3] :=
  collectResults_totals_nonfatal ("s") [wFatalC3, wOkC3] rC3 (by
    rw [collectResults_eq_match]
    norm_num [wFatalC3, wOkC3, rC3, collectStep, collectInit,
      mergeWorkerGroups, mergeGroup, mapGet, mapSet])

/-- C7: the combined histogram of the aggregate Result is the multiset union of the
non-fatal workers' samples, the per-worker results are retained unchanged, and any
permutation of the worker results that aggregates successfully yields the same
combined histogram (so every percentile query agrees). -/
theorem collectResults_histogram_order_independent (scenario : String)
    (results : List WorkerResult) (r : Result)
    (h : collectResults scenario results = Except.ok r) :
    r.totalLatencies = some ((nfLatencies results).sum)
    ∧ r.workers = results
    ∧ ∀ (results2 : List WorkerResult) (r2 : Result), results.Perm results2 →
        collectResults scenario results2 = Except.ok r2 →
        r2.totalLatencies = r.totalLatencies := by
  refine ⟨collectResults_totalLatencies scenario results r h, ?_, ?_⟩
  · obtain ⟨hm, hcomb, hr⟩ := collectResults_ok_elim scenario results r h
    subst hr; rfl
  · intro results2 r2 hperm h2
    rw [collectResults_totalLatencies scenario results2 r2 h2,
      collectResults_totalLatencies scenario results r h]
    have hp : (nfLatencies results2).Perm (nfLatencies results) := by
      unfold nfLatencies
      exact (hperm.symm.filter fun x => x.error.isNone).map WorkerResult.latencies
    rw [hp.sum_eq]

/-- First concrete non-fatal worker for the C7 witness. -/
def wAC7 : WorkerResult :=
  { succeeded := 1, failed := 0, rate := 0, latencies := {5}
    failedByErrorGroup := [], error := none }

/-- Second concrete non-fatal worker for the C7 witness. -/
def wBC7 : WorkerResult :=
  { succeeded := 2, failed := 0, rate := 0, latencies := {7}
    failedByErrorGroup := [], error := none }

/-- The aggregate Result produced for `[wAC7, wBC7]`. -/
def rC7 : Result :=
  { scenario := "t", totalSucceeded := 3, totalFailed := 0, totalRate := 0
    totalLatencies := some ({5} + {7}), failedByErrorGroup := []
    workers := [wAC7, wBC7] }

theorem collectResults_histogram_order_independent_witness :
    rC7.totalLatencies = some ((nfLatencies [wAC7, wBC7]).sum) :=
  (collectResults_histogram_order_independent ("t") [wAC7, wBC7] rC7 (by
    rw [collectResults_eq_match]
    norm_num [wAC7, wBC7, rC7, collectStep, collectInit, mergeWorkerGroups])).1

lemma mapGet_mapSet_self {α : Type} (m : List (String × α)) (k : String) (v : α) :
    mapGet (mapSet m k v) k = some v := by
  induction m with
  | nil => simp [mapGet, mapSet]
  | cons p rest ih =>
      obtain ⟨n, w⟩ := p
      by_cases hn : n = k
      · simp [mapGet, mapSet, hn]
      · simp [mapGet, mapSet, hn, ih]

lemma mapGet_mapSet_ne {α : Type} (m : List (String × α)) (k k2 : String) (v : α)
    (h : k2 ≠ k) : mapGet (mapSet m k v) k2 = mapGet m k2 := by
  induction m with
  | nil => simp [mapGet, mapSet, Ne.symm h]
  | cons p rest ih =>
      obtain ⟨n, w⟩ := p
      by_cases hn : n = k
      · subst hn
        simp [mapGet, mapSet, Ne.symm h]
      · by_cases hn2 : n = k2
        · simp [mapGet, mapSet, hn, hn2, h]
        · simp [mapGet, mapSet, hn, hn2, ih]

lemma mapGet_mergeGroup (m : List (String × FailureGroup)) (name : String)
    (g : FailureGroup) (k : String) :
    mapGet (mergeGroup m name g) k =
      if k = name then
        some (match mapGet m name with
              | some e => { count := e.count + g.count, firstFailure := e.firstFailure }
              | none => g)
      else mapGet m k := by
  by_cases hk : k = name
  · subst hk
    cases hg : mapGet m k <;> simp [mergeGroup, hg, mapGet_mapSet_self]
  · cases hg : mapGet m name <;> simp [mergeGroup, hg, mapGet_mapSet_ne m name k _ hk, hk]

lemma keyEntries_nil (k : String) : keyEntries k [] = [] := rfl

lemma keyEntries_cons (k : String) (p : String × FailureGroup)
    (gs : List (String × FailureGroup)) :
    keyEntries k (p :: gs) =
      if p.1 = k then p.2 :: keyEntries k gs else keyEntries k gs := by
  by_cases h : p.1 = k <;> simp [keyEntries, List.filterMap_cons, h]

lemma keyEntries_append (k : String) (l1 l2 : List (String × FailureGroup)) :
    keyEntries k (l1 ++ l2) = keyEntries k l1 ++ keyEntries k l2 := by
  simp [keyEntries, List.filterMap_append]

lemma combineEntries_append (o : Option FailureGroup) (l1 l2 : List FailureGroup) :
    combineEntries o (l1 ++ l2) = combineEntries (combineEntries o l1) l2 := by
  induction l1 generalizing o with
  | nil => simp [combineEntries]
  | cons g gs ih =>
      cases o <;> simp [combineEntries, ih]

lemma mapGet_mergeWorkerGroups (m : List (String × FailureGroup))
    (groups : List (String × FailureGroup)) (k : String) :
    mapGet (mergeWorkerGroups m groups) k
      = combineEntries (mapGet m k) (keyEntries k groups) := by
  induction groups generalizing m with
  | nil => simp [mergeWorkerGroups, keyEntries_nil, combineEntries]
  | cons p gs ih =>
      obtain ⟨n, g⟩ := p
      have hstep : mergeWorkerGroups m ((n, g) :: gs)
          = mergeWorkerGroups (mergeGroup m n g) gs := rfl
      rw [hstep, ih, mapGet_mergeGroup, keyEntries_cons]
      by_cases hk : k = n
      · subst hk
        simp only [if_pos rfl]
        cases hg : mapGet m k <;> simp [combineEntries, hg]
      · simp [hk, Ne.symm hk]

/-- Invariant of the result-processing loop for the merged failure-group map:
per key, the loop combines (in arrival order) all entries recorded under that key
by the non-fatal workers. -/
lemma foldl_collectStep_group_lookup (results : List WorkerResult) (acc : CollectAcc)
    (k : String) :
    mapGet (results.foldl collectStep acc).groups k
      = combineEntries (mapGet acc.groups k)
          (keyEntries k ((results.filter fun r => r.error.isNone).flatMap
            WorkerResult.failedByErrorGroup)) := by
  induction results generalizing acc with
  | nil => simp [keyEntries_nil, combineEntries]
  | cons r rs ih =>
      rw [List.foldl_cons]
      cases hr : r.error with
      | some e =>
          rw [collectStep_fatal acc r e hr, ih]
          simp [List.filter_cons, hr]
      | none =>
          have hg : (collectStep acc r).groups
              = mergeWorkerGroups acc.groups r.failedByErrorGroup := by
            simp [collectStep, hr]
          rw [ih, hg, mapGet_mergeWorkerGroups]
          simp [List.filter_cons, hr, keyEntries_append, combineEntries_append]

lemma combineEntries_some (e : FailureGroup) (gs : List FailureGroup) :
    combineEntries (some e) gs
      = some { count := e.count + (gs.map FailureGroup.count).sum
               firstFailure := e.firstFailure } := by
  induction gs generalizing e with
  | nil => simp [combineEntries]
  | cons g gs2 ih =>
      rw [combineEntries, ih]
      simp [List.sum_cons, add_assoc]

lemma combineEntries_none_cons (g : FailureGroup) (gs : List FailureGroup) :
    combineEntries none (g :: gs)
      = some { count := g.count + (gs.map FailureGroup.count).sum
               firstFailure := g.firstFailure } := by
  rw [combineEntries, combineEntries_some]

/-- C2 (amended): for every error-signature key, the aggregate count is the sum of that
key's counts over the non-fatal workers' entries (in arrival order), and the aggregate
FirstFailure is the FirstFailure recorded by the first such entry encountered — not
necessarily the earliest timestamp. -/
theorem collectResults_failureGroup_merge (scenario : String)
    (results : List WorkerResult) (r : Result) (k : String)
    (h : collectResults scenario results = Except.ok r) :
    mapGet r.failedByErrorGroup k =
      match keyEntries k ((results.filter fun x => x.error.isNone).flatMap
          WorkerResult.failedByErrorGroup) with
      | [] => none
      | g :: gs =>
          some { count := g.count + (gs.map FailureGroup.count).sum
                 firstFailure := g.firstFailure } := by
  obtain ⟨hm, hcomb, hr⟩ := collectResults_ok_elim scenario results r h
  rw [hr]
  show mapGet (results.foldl collectStep collectInit).groups k = _
  rw [foldl_collectStep_group_lookup results collectInit k]
  cases hke : keyEntries k ((results.filter fun x => x.error.isNone).flatMap
      WorkerResult.failedByErrorGroup) with
  | nil => simp [collectInit, mapGet, combineEntries]
  | cons g gs =>
      have : mapGet collectInit.groups k = none := rfl
      rw [this, combineEntries_none_cons]

/-- A non-fatal worker whose key `e` failure group has the later FirstFailure (100)
but arrives first. -/
def wXC2 : WorkerResult :=
  { succeeded := 0, failed := 1, rate := 0, latencies := 0
    failedByErrorGroup := [("e", ⟨1, 100⟩)], error := none }

/-- A non-fatal worker whose key `e` failure group has the earlier FirstFailure (50)
but arrives second. -/
def wYC2 : WorkerResult :=
  { succeeded := 0, failed := 2, rate := 0, latencies := 0
    failedByErrorGroup := [("e", ⟨2, 50⟩)], error := none }

/-- The aggregate Result produced for `[wXC2, wYC2]`. -/
def rC2 : Result :=
  { scenario := "u", totalSucceeded := 0, totalFailed := 3, totalRate := 0
    totalLatencies := some 0, failedByErrorGroup := [("e", ⟨3, 100⟩)]
    workers := [wXC2, wYC2] }

theorem collectResults_failureGroup_merge_witness :
    mapGet rC2.failedByErrorGroup ("e") =
      match keyEntries ("e") (([wXC2, wYC2].filter fun x => x.error.isNone).flatMap
          WorkerResult.failedByErrorGroup) with
      | [] => none
      | g :: gs =>
          some { count := g.count + (gs.map FailureGroup.count).sum
                 firstFailure := g.firstFailure } :=
  collectResults_failureGroup_merge ("u") [wXC2, wYC2] rC2 ("e") (by
    rw [collectResults_eq_match]
    norm_num [wXC2, wYC2, rC2, collectStep, collectInit, mergeWorkerGroups,
      mergeGroup, mapGet, mapSet])

/-- C2 counterexample: with worker `wXC2` (count 1, FirstFailure 100) collected before
worker `wYC2` (count 2, FirstFailure 50), the aggregate entry for key `e` is
(count 3, FirstFailure 100): the count is the sum, but the FirstFailure kept is the
first-merged worker's 100, not the earliest timestamp 50. -/
theorem collectResults_firstFailure_not_earliest :
    (collectResults ("u") [wXC2, wYC2]).toOption.map
        (fun r => mapGet r.failedByErrorGroup ("e"))
      = some (some { count := 3, firstFailure := 100 })
    ∧ ({ count := 3, firstFailure := 100 } : FailureGroup)
        ≠ { count := 3, firstFailure := min 100 50 } := by
  constructor
  · rw [collectResults_eq_match]
    norm_num [wXC2, wYC2, collectStep, collectInit, mergeWorkerGroups,
      mergeGroup, mapGet, mapSet, Except.toOption]
  · decide

/-- Go conversion of a float64 to an integer (`time.Duration(...)`): truncation toward
zero, modelled on the exact rational value. -/
def goTrunc (q : ℚ) : Int := Int.tdiv q.num q.den

/-- The pacing computation of runBenchmark (src/main.go lines 183-187): in latency mode
the per-worker rate is `rate / numClients` and the interval is
`time.Duration(1000*1000/ratePerWorkerPerSecond) * time.Microsecond`; otherwise the
interval stays zero. The result is the `time.Duration` in nanoseconds. -/
def ratePerWorkerDuration (latencyMode : Bool) (rate : ℚ) (numClients : Nat) : Int :=
  if latencyMode then
    goTrunc ((1000 * 1000 : ℚ) / (rate / (numClients : ℚ))) * 1000
  else 0

/-- C5: whenever latency mode is not selected, the pacing interval handed to every
worker is zero, whatever the rate flag and client count are. -/
theorem ratePerWorkerDuration_throughput_zero (rate : ℚ) (numClients : Nat) :
    ratePerWorkerDuration false rate numClients = 0 := rfl

lemma goTrunc_eq_floor (q : ℚ) (h : 0 ≤ q) : goTrunc q = ⌊q⌋ := by
  rw [Rat.floor_def, goTrunc]
  exact Int.tdiv_eq_ediv (Rat.num_nonneg.mpr h) (Int.ofNat_nonneg _)

/-- C4 counterexample: for a total rate of 3 tx/s on 1 worker the interval handed to the
worker is 333333000 ns (333.333 ms, the microsecond truncation of 1/3 s), which is not
equal to one second divided by the per-worker rate. -/
theorem ratePerWorkerDuration_not_exact :
    ratePerWorkerDuration true 3 1 = 333333000
    ∧ ((333333000 : ℚ) ≠ 10 ^ 9 / ((3 : ℚ) / ((1 : Nat) : ℚ))) := by
  constructor
  · show goTrunc ((1000 * 1000 : ℚ) / ((3 : ℚ) / ((1 : Nat) : ℚ))) * 1000 = 333333000
    have h1 : ((1000 * 1000 : ℚ) / ((3 : ℚ) / ((1 : Nat) : ℚ))) = 1000000 / 3 := by
      norm_num
    rw [h1, goTrunc_eq_floor _ (by norm_num)]
    have h2 : ⌊(1000000 : ℚ) / 3⌋ = 333333 := by
      rw [Int.floor_eq_iff]
      norm_num
    rw [h2]; norm_num
  · norm_num

/-- C4 (amended): in latency mode the pacing interval is one second divided by the
per-worker target rate rate/numClients, rounded down to a whole number of microseconds
(`time.Duration(1000*1000/r)` truncates the float to integer microseconds); it therefore
lies within 1000 ns below the exact value 10^9*numClients/rate, and for a total target
rate of 10 tx/s split across 2 workers it is exactly 200ms. -/
theorem ratePerWorkerDuration_latency (rate : ℚ) (numClients : Nat)
    (hr : 0 < rate) (hc : 0 < numClients) :
    ratePerWorkerDuration true rate numClients
        = ⌊(1000000 : ℚ) * numClients / rate⌋ * 1000
    ∧ ((ratePerWorkerDuration true rate numClients : ℚ)
        ≤ 10 ^ 9 * numClients / rate)
    ∧ (10 ^ 9 * (numClients : ℚ) / rate - 1000
        < (ratePerWorkerDuration true rate numClients : ℚ))
    ∧ ratePerWorkerDuration true 10 2 = 200000000 := by
  have hcq : (0 : ℚ) < numClients := by exact_mod_cast hc
  have harg : (1000 * 1000 : ℚ) / (rate / (numClients : ℚ))
      = 1000000 * numClients / rate := by
    rw [div_div_eq_mul_div]
    norm_num
  have hpos : 0 ≤ (1000000 : ℚ) * numClients / rate := by positivity
  have h1 : ratePerWorkerDuration true rate numClients
      = ⌊(1000000 : ℚ) * numClients / rate⌋ * 1000 := by
    show goTrunc ((1000 * 1000 : ℚ) / (rate / (numClients : ℚ))) * 1000 = _
    rw [harg, goTrunc_eq_floor _ hpos]
  have h109 : (10 : ℚ) ^ 9 * numClients / rate
      = 1000 * ((1000000 : ℚ) * numClients / rate) := by
    ring
  have hf1 : ((⌊(1000000 : ℚ) * numClients / rate⌋ : ℚ))
      ≤ (1000000 : ℚ) * numClients / rate := Int.floor_le _
  have hf2 : (1000000 : ℚ) * numClients / rate
      < ⌊(1000000 : ℚ) * numClients / rate⌋ + 1 := Int.lt_floor_add_one _
  refine ⟨h1, ?_, ?_, ?_⟩
  · rw [h1, h109]
    push_cast
    linarith
  · rw [h1, h109]
    push_cast
    linarith
  · show goTrunc ((1000 * 1000 : ℚ) / ((10 : ℚ) / ((2 : Nat) : ℚ))) * 1000 = 200000000
    have ha : ((1000 * 1000 : ℚ) / ((10 : ℚ) / ((2 : Nat) : ℚ))) = 200000 := by
      norm_num
    rw [ha, goTrunc_eq_floor _ (by norm_num)]
    norm_num

theorem ratePerWorkerDuration_latency_witness :
    ratePerWorkerDuration true 10 2 = 200000000 :=
  (ratePerWorkerDuration_latency 10 2 (by norm_num) (by norm_num)).2.2.2

/-- strings.Split on the separator `@` (as used at src/main.go line 112), on the
character list of the string: splits at every occurrence of `@`; the accumulator holds
the current field in reverse. -/
def goSplit : List Char → List Char → List (List Char)
  | [], acc => [acc.reverse]
  | c :: rest, acc =>
      if c = '@' then acc.reverse :: goSplit rest [] else goSplit rest (c :: acc)

/-- One decimal digit, as accepted by strconv parsing. -/
def digitVal (c : Char) : Option Nat :=
  if '0' ≤ c ∧ c ≤ '9' then some (c.toNat - 48) else none

/-- Accumulating decimal parse: succeeds only if every character is a digit. -/
def parseDigitsAux : List Char → Nat → Option Nat
  | [], acc => some acc
  | c :: rest, acc =>
      match digitVal c with
      | some d => parseDigitsAux rest (acc * 10 + d)
      | none => none

/-- strconv.Atoi / strconv.ParseInt(s, 10, 64) (Go standard library boundary): an
optional sign followed by at least one decimal digit, with the int64 range check
(values outside [-2^63, 2^63-1] yield a range error, modelled as `none`). -/
def atoi (s : List Char) : Option Int :=
  match s with
  | [] => none
  | c :: rest =>
      if c = '+' then
        match rest with
        | [] => none
        | _ => (parseDigitsAux rest 0).bind fun n =>
            if n ≤ 9223372036854775807 then some (n : Int) else none
      else if c = '-' then
        match rest with
        | [] => none
        | _ => (parseDigitsAux rest 0).bind fun n =>
            if n ≤ 9223372036854775808 then some (-(n : Int)) else none
      else
        (parseDigitsAux s 0).bind fun n =>
          if n ≤ 9223372036854775807 then some (n : Int) else none

/-- The workload-identifier handling of main (src/main.go lines 111-121): split the
identifier at `@`; with more than one part, the second part must parse as an integer
weight (else the program aborts, modelled as `none`) and the path becomes the first
part; the weight is then converted to uint (`uint(weight)`, i.e. reduced mod 2^64)
for createScript. Returns the (path, weight) pair handed to createScript. -/
def parseWorkload (s : String) : Option (String × Nat) :=
  match goSplit s.toList [] with
  | [] => some (s, 1)
  | [_] => some (s, 1)
  | p :: q :: _ =>
      match atoi q with
      | none => none
      | some w => some (String.mk p, (w % (2 ^ 64 : Int)).toNat)

lemma goSplit_no_at (xs : List Char) (acc : List Char) (h : '@' ∉ xs) :
    goSplit xs acc = [acc.reverse ++ xs] := by
  induction xs generalizing acc with
  | nil => simp [goSplit]
  | cons c rest ih =>
      have hc : ¬ c = '@' := fun hc => h (by simp [hc])
      have hrest : '@' ∉ rest := fun hr => h (by simp [hr])
      simp [goSplit, hc, ih _ hrest]

lemma goSplit_at_split (xs ys : List Char) (acc : List Char) (h : '@' ∉ xs) :
    goSplit (xs ++ '@' :: ys) acc = (acc.reverse ++ xs) :: goSplit ys [] := by
  induction xs generalizing acc with
  | nil => simp [goSplit]
  | cons c rest ih =>
      have hc : ¬ c = '@' := fun hc => h (by simp [hc])
      have hrest : '@' ∉ rest := fun hr => h (by simp [hr])
      simp [goSplit, hc, ih _ hrest]

/-- C6 counterexample: the identifier `a@2@3` has the shape path@N for path `a@2` and
integer 3, yet the program does not parse the script from `a@2` with weight 3: it
splits at every `@` and yields path `a` with weight 2, silently ignoring `@3`. -/
theorem parseWorkload_multi_at :
    parseWorkload (String.mk ['a', '@', '2', '@', '3']) = some (String.mk ['a'], 2)
    ∧ (some (String.mk ['a'], 2) : Option (String × Nat))
        ≠ some (String.mk ['a', '@', '2'], 3) := by
  constructor
  · rfl
  · decide

/-- C6 (amended): the identifier is split at every `@`. With no `@` the script is
parsed from the identifier itself with default weight 1. With at least one `@`, the
text between the first and the second `@` must parse as a 64-bit integer N — otherwise
the run aborts — and the script is parsed from the text before the first `@` with
weight uint64(N); any text from the second `@` on is ignored. -/
theorem parseWorkload_amended :
    (∀ s : String, '@' ∉ s.toList → parseWorkload s = some (s, 1))
    ∧ (∀ (path ns : List Char) (w : Int), '@' ∉ path → '@' ∉ ns →
        atoi ns = some w →
        parseWorkload (String.mk (path ++ '@' :: ns))
          = some (String.mk path, (w % (2 ^ 64 : Int)).toNat))
    ∧ (∀ (path ns : List Char), '@' ∉ path → '@' ∉ ns → atoi ns = none →
        parseWorkload (String.mk (path ++ '@' :: ns)) = none)
    ∧ (∀ (path mid rest : List Char), '@' ∉ path → '@' ∉ mid →
        parseWorkload (String.mk (path ++ '@' :: (mid ++ '@' :: rest)))
          = parseWorkload (String.mk (path ++ '@' :: mid))) := by
  refine ⟨?_, ?_, ?_, ?_⟩
  · intro s hs
    unfold parseWorkload
    rw [goSplit_no_at s.toList [] hs]
  · intro path ns w hp hn hw
    unfold parseWorkload
    rw [show (String.mk (path ++ '@' :: ns)).toList = path ++ '@' :: ns from rfl,
      goSplit_at_split path ns [] hp, goSplit_no_at ns [] hn]
    simp [hw]
  · intro path ns hp hn hw
    unfold parseWorkload
    rw [show (String.mk (path ++ '@' :: ns)).toList = path ++ '@' :: ns from rfl,
      goSplit_at_split path ns [] hp, goSplit_no_at ns [] hn]
    simp [hw]
  · intro path mid rest hp hm
    unfold parseWorkload
    rw [show (String.mk (path ++ '@' :: (mid ++ '@' :: rest))).toList
        = path ++ '@' :: (mid ++ '@' :: rest) from rfl,
      show (String.mk (path ++ '@' :: mid)).toList = path ++ '@' :: mid from rfl,
      goSplit_at_split path (mid ++ '@' :: rest) [] hp,
      goSplit_at_split path mid [] hp,
      goSplit_at_split mid rest [] hm, goSplit_no_at mid [] hm]

theorem parseWorkload_amended_witness :
    parseWorkload (String.mk ("wl".toList ++ '@' :: "3".toList))
      = some (String.mk "wl".toList, ((3 : Int) % (2 ^ 64 : Int)).toNat) :=
  parseWorkload_amended.2.1 "wl".toList "3".toList 3 (by decide) (by decide) (by decide)

/-- The values main stores into the `variables` map (src/main.go lines 94-108): only
64-bit integers and 64-bit floats ever enter it (floats modelled as exact rationals). -/
inductive GoVal where
  | int (i : Int)
  | float (q : ℚ)
deriving Repr, DecidableEq

/-- Whether a stored variable value is an integer. -/
def GoVal.isInt : GoVal → Bool
  | .int _ => true
  | .float _ => false

/-- Longest digit prefix of a character list (strconv mantissa scanning). -/
def spanDigits : List Char → List Char × List Char
  | [] => ([], [])
  | c :: rest =>
      if '0' ≤ c ∧ c ≤ '9' then
        ((spanDigits rest).1.cons c, (spanDigits rest).2)
      else ([], c :: rest)

/-- Value of a digit list (all characters assumed digits). -/
def digitsToNat (l : List Char) : Nat :=
  l.foldl (fun acc c => acc * 10 + (c.toNat - 48)) 0

/-- Exponent part of a float literal: optional sign, then at least one digit. -/
def parseExp (s : List Char) : Option Int :=
  match s with
  | [] => none
  | c :: rest =>
      if c = '+' then
        match rest with
        | [] => none
        | _ => (parseDigitsAux rest 0).map fun n => (n : Int)
      else if c = '-' then
        match rest with
        | [] => none
        | _ => (parseDigitsAux rest 0).map fun n => -(n : Int)
      else (parseDigitsAux s 0).map fun n => (n : Int)

/-- Unsigned float body: integer digits, optional fraction, optional exponent; at least
one mantissa digit is required. -/
def parseFloatBody (s : List Char) : Option ℚ :=
  match spanDigits s with
  | (ip, '.' :: r) =>
      match spanDigits r with
      | (fp, rest2) =>
          if ip = [] ∧ fp = [] then none
          else
            match rest2 with
            | [] => some ((digitsToNat ip : ℚ) + (digitsToNat fp : ℚ) / 10 ^ fp.length)
            | 'e' :: er => (parseExp er).map fun e =>
                ((digitsToNat ip : ℚ) + (digitsToNat fp : ℚ) / 10 ^ fp.length) * 10 ^ e
            | 'E' :: er => (parseExp er).map fun e =>
                ((digitsToNat ip : ℚ) + (digitsToNat fp : ℚ) / 10 ^ fp.length) * 10 ^ e
            | _ => none
  | (ip, rest2) =>
      if ip = [] then none
      else
        match rest2 with
        | [] => some (digitsToNat ip : ℚ)
        | 'e' :: er => (parseExp er).map fun e => (digitsToNat ip : ℚ) * 10 ^ e
        | 'E' :: er => (parseExp er).map fun e => (digitsToNat ip : ℚ) * 10 ^ e
        | _ => none

/-- Modelled from the spec: strconv.ParseFloat(v, 64) (Go standard library, external to
this repository), restricted to finite decimal forms — optional sign, decimal mantissa
with optional fraction, optional decimal exponent — whose value is represented as an
exact rational. The special forms (inf/nan, hex mantissas, underscores) and the
overflow-to-range-error behavior are outside the model; no claim depends on them. -/
def goParseFloat (s : List Char) : Option ℚ :=
  match s with
  | [] => none
  | c :: rest =>
      if c = '+' then parseFloatBody rest
      else if c = '-' then (parseFloatBody rest).map fun q => -q
      else parseFloatBody s

/-- The per-define parsing of main (src/main.go lines 96-107): try
strconv.ParseInt(v, 10, 64) first and store an integer on success, otherwise try
strconv.ParseFloat(v, 64) and store a float, otherwise abort (modelled as `none`). -/
def parseDefine (v : String) : Option GoVal :=
  match atoi v.toList with
  | some i => some (GoVal.int i)
  | none => (goParseFloat v.toList).map GoVal.float

/-- The `for k, v := range fVariables` loop of main (src/main.go lines 96-108), iterating
the -D (--define) map in the given order over an environment already holding `scale`. -/
def seedDefines (env : List (String × GoVal)) :
    List (String × String) → Option (List (String × GoVal))
  | [] => some env
  | (k, v) :: rest =>
      match parseDefine v with
      | some gv => seedDefines (mapSet env k gv) rest
      | none => none

/-- The variable seeding of main (src/main.go lines 94-108): `variables["scale"] = fScale`
followed by the define-parsing loop. -/
def seedVariables (scale : Int) (defines : List (String × String)) :
    Option (List (String × GoVal)) :=
  seedDefines [("scale", GoVal.int scale)] defines

lemma seedDefines_none_iff (env : List (String × GoVal))
    (defines : List (String × String)) :
    seedDefines env defines = none ↔ ∃ kv ∈ defines, parseDefine kv.2 = none := by
  induction defines generalizing env with
  | nil => simp [seedDefines]
  | cons kv rest ih =>
      obtain ⟨k, v⟩ := kv
      cases hp : parseDefine v with
      | none => simp [seedDefines, hp]
      | some gv => simp [seedDefines, hp, ih]

lemma seedDefines_not_mem (env env2 : List (String × GoVal))
    (defines : List (String × String)) (k : String)
    (h : seedDefines env defines = some env2) (hk : k ∉ defines.map Prod.fst) :
    mapGet env2 k = mapGet env k := by
  induction defines generalizing env with
  | nil =>
      have : env = env2 := by simpa [seedDefines] using h
      rw [this]
  | cons kv rest ih =>
      obtain ⟨k0, v0⟩ := kv
      cases hp : parseDefine v0 with
      | none => rw [seedDefines, hp] at h; exact absurd h (by simp)
      | some gv =>
          rw [seedDefines, hp] at h
          have hk0 : k ≠ k0 := fun he => hk (by simp [he])
          have hkr : k ∉ rest.map Prod.fst := fun hr => hk (by simp [hr])
          rw [ih (mapSet env k0 gv) h hkr, mapGet_mapSet_ne env k0 k gv hk0]

lemma seedDefines_mem : ∀ (defines : List (String × String))
    (env env2 : List (String × GoVal)) (k v : String),
    (defines.map Prod.fst).Nodup → seedDefines env defines = some env2 →
    (k, v) ∈ defines → mapGet env2 k = parseDefine v := by
  intro defines
  induction defines with
  | nil => intro env env2 k v _ _ hmem; simp at hmem
  | cons kv rest ih =>
      intro env env2 k v hnd h hmem
      obtain ⟨k0, v0⟩ := kv
      cases hp : parseDefine v0 with
      | none => rw [seedDefines, hp] at h; exact absurd h (by simp)
      | some gv =>
          rw [seedDefines, hp] at h
          simp only [List.map_cons, List.nodup_cons] at hnd
          rcases List.mem_cons.mp hmem with heq | hrest
          · have hk : k = k0 := congrArg Prod.fst heq
            have hv : v = v0 := congrArg Prod.snd heq
            subst hk; subst hv
            rw [seedDefines_not_mem (mapSet env k gv) env2 rest k h hnd.1,
              mapGet_mapSet_self, hp]
          · exact ih (mapSet env k0 gv) env2 k v hnd.2 h hrest

/-- C9 counterexample: the define `-D scale=2.5` parses as a float and overwrites the
integer `scale` seeded from the --scale flag, so the seeded environment does not always
hold `scale` as an integer. -/
theorem seedVariables_scale_override :
    (seedVariables 1 [("scale", "2.5")]).map (fun env => mapGet env ("scale"))
      = some (some (GoVal.float (5 / 2)))
    ∧ GoVal.isInt (GoVal.float (5 / 2)) = false := by
  constructor
  · have h : seedVariables 1 [("scale", "2.5")]
        = some [("scale", GoVal.float
            ((digitsToNat ['2'] : ℚ) + (digitsToNat ['5'] : ℚ) / 10 ^ (1 : ℕ)))] := rfl
    rw [h]
    have hd2 : (digitsToNat ['2'] : ℕ) = 2 := rfl
    have hd5 : (digitsToNat ['5'] : ℕ) = 5 := rfl
    simp [mapGet, hd2, hd5]
    norm_num
  · rfl

/-- C9 (amended): every -D (--define) value is parsed first as a 64-bit integer and stored
as an integer when that succeeds, otherwise parsed as a float and stored as a float,
otherwise the run aborts; only integer or float values can enter the environment
(strings are impossible); and the environment holds `scale` as the integer --scale value
unless a define named `scale` overrides it with whatever value that define parses to. -/
theorem seedVariables_defines (scale : Int) (defines : List (String × String))
    (hnd : (defines.map Prod.fst).Nodup) :
    (∀ v w, atoi v.toList = some w → parseDefine v = some (GoVal.int w))
    ∧ (∀ v, atoi v.toList = none →
        parseDefine v = (goParseFloat v.toList).map GoVal.float)
    ∧ (seedVariables scale defines = none
        ↔ ∃ kv ∈ defines, parseDefine kv.2 = none)
    ∧ (∀ env, seedVariables scale defines = some env →
        (∀ k v, (k, v) ∈ defines → mapGet env k = parseDefine v)
        ∧ ("scale" ∉ defines.map Prod.fst →
            mapGet env ("scale") = some (GoVal.int scale))
        ∧ (∀ k gv, mapGet env k = some gv →
            (∃ i, gv = GoVal.int i) ∨ (∃ q, gv = GoVal.float q))) := by
  refine ⟨?_, ?_, seedDefines_none_iff _ defines, ?_⟩
  · intro v w hw; unfold parseDefine; rw [hw]
  · intro v hw; unfold parseDefine; rw [hw]
  · intro env henv
    refine ⟨?_, ?_, ?_⟩
    · intro k v hmem
      exact seedDefines_mem defines _ env k v hnd henv hmem
    · intro hns
      rw [seedDefines_not_mem _ env defines ("scale") henv hns]
      rfl
    · intro k gv _
      cases gv with
      | int i => exact Or.inl ⟨i, rfl⟩
      | float q => exact Or.inr ⟨q, rfl⟩

theorem seedVariables_defines_witness :
    mapGet [("scale", GoVal.int 1), ("x", GoVal.int 7)] ("x") = parseDefine ("7") :=
  ((seedVariables_defines 1 [("x", "7")] (by decide)).2.2.2
    [("scale", GoVal.int 1), ("x", GoVal.int 7)] rfl).1 ("x") ("7") (by decide)

/-- neobench.EncryptionMode: the three encryption settings selected by main
(src/main.go lines 77-87). -/
inductive EncryptionMode where
  | EncryptionAuto
  | EncryptionOn
  | EncryptionOff
deriving Repr, DecidableEq

/-- strings.ToLower restricted to ASCII (Go lowers each rune; the matched keywords are
all ASCII, so only the A-Z range is relevant to the switch). -/
def goToLower (c : Char) : Char :=
  if 'A' ≤ c ∧ c ≤ 'Z' then Char.ofNat (c.toNat + 32) else c

/-- strings.ToLower on a whole string. -/
def lowerStr (s : String) : String := String.mk (s.toList.map goToLower)

/-- The encryption-mode switch of main (src/main.go lines 77-87):
`switch strings.ToLower(fEncryptionMode)` with cases auto; true, yes, y, 1;
false, no, n, 0; any other value hits log.Fatalf (modelled as `none`), which
happens before neobench.NewDriver is called (src/main.go line 89). -/
def parseEncryptionMode (s : String) : Option EncryptionMode :=
  if lowerStr s = "auto" then some EncryptionMode.EncryptionAuto
  else if lowerStr s = "true" ∨ lowerStr s = "yes" ∨ lowerStr s = "y" ∨ lowerStr s = "1"
    then some EncryptionMode.EncryptionOn
  else if lowerStr s = "false" ∨ lowerStr s = "no" ∨ lowerStr s = "n" ∨ lowerStr s = "0"
    then some EncryptionMode.EncryptionOff
  else none

/-- C10: the encryption flag is matched case-insensitively (on its ASCII lowering):
auto selects automatic encryption; true, yes, y, 1 select encryption on; false, no, n,
0 select encryption off; anything else aborts before a connection is attempted; and the
mixed-case inputs AUTO, Yes, FALSE behave accordingly. -/
theorem parseEncryptionMode_cases (s : String) :
    (parseEncryptionMode s = some EncryptionMode.EncryptionAuto ↔ lowerStr s = "auto")
    ∧ (parseEncryptionMode s = some EncryptionMode.EncryptionOn ↔
        (lowerStr s = "true" ∨ lowerStr s = "yes" ∨ lowerStr s = "y"
          ∨ lowerStr s = "1"))
    ∧ (parseEncryptionMode s = some EncryptionMode.EncryptionOff ↔
        (lowerStr s = "false" ∨ lowerStr s = "no" ∨ lowerStr s = "n"
          ∨ lowerStr s = "0"))
    ∧ (parseEncryptionMode s = none ↔
        ¬(lowerStr s = "auto"
          ∨ (lowerStr s = "true" ∨ lowerStr s = "yes" ∨ lowerStr s = "y"
              ∨ lowerStr s = "1")
          ∨ (lowerStr s = "false" ∨ lowerStr s = "no" ∨ lowerStr s = "n"
              ∨ lowerStr s = "0")))
    ∧ parseEncryptionMode ("AUTO") = some EncryptionMode.EncryptionAuto
    ∧ parseEncryptionMode ("Yes") = some EncryptionMode.EncryptionOn
    ∧ parseEncryptionMode ("FALSE") = some EncryptionMode.EncryptionOff
    ∧ parseEncryptionMode ("whatever") = none := by
  by_cases h1 : lowerStr s = "auto"
  · have he : parseEncryptionMode s = some EncryptionMode.EncryptionAuto := by
      unfold parseEncryptionMode; rw [if_pos h1]
    refine ⟨?_, ?_, ?_, ?_, by decide, by decide, by decide, by decide⟩ <;>
      (simp [he, h1]; try decide)
  · by_cases h2 : lowerStr s = "true" ∨ lowerStr s = "yes" ∨ lowerStr s = "y"
        ∨ lowerStr s = "1"
    · have he : parseEncryptionMode s = some EncryptionMode.EncryptionOn := by
        unfold parseEncryptionMode; rw [if_neg h1, if_pos h2]
      refine ⟨?_, ?_, ?_, ?_, by decide, by decide, by decide, by decide⟩ <;>
        (rcases h2 with h | h | h | h <;> (simp [he, h]; try decide))
    · by_cases h3 : lowerStr s = "false" ∨ lowerStr s = "no" ∨ lowerStr s = "n"
          ∨ lowerStr s = "0"
      · have he : parseEncryptionMode s = some EncryptionMode.EncryptionOff := by
          unfold parseEncryptionMode; rw [if_neg h1, if_neg h2, if_pos h3]
        refine ⟨?_, ?_, ?_, ?_, by decide, by decide, by decide, by decide⟩ <;>
          (rcases h3 with h | h | h | h <;> (simp [he, h]; try decide))
      · have he : parseEncryptionMode s = none := by
          unfold parseEncryptionMode; rw [if_neg h1, if_neg h2, if_neg h3]
        refine ⟨?_, ?_, ?_, ?_, by decide, by decide, by decide, by decide⟩
        · simp [he, h1]
        · exact iff_of_false (by simp [he]) h2
        · exact iff_of_false (by simp [he]) h3
        · exact iff_of_true he (by rintro (h | h | h); exacts [h1 h, h2 h, h3 h])

/-- Observable events of main's init-and-start sequence: the call into the external
dataset initializer (neobench.InitTPCBLike), the log.Fatal exit on its failure, and
the start of worker goroutine i. -/
inductive MainEvent where
  | initCalled
  | fatalExit
  | workerStarted (i : Nat)
deriving Repr, DecidableEq

/-- initWorkload (src/main.go lines 275-282): walk the workload paths and, at the first
`builtin:tpcb-like`, return the result of calling neobench.InitTPCBLike (the external
initializer, whose failure is the parameter `initCallFails`); with no builtin path,
return nil without calling anything. Result: emitted events and whether an error was
returned. -/
def initWorkload : List String → Bool → List MainEvent × Bool
  | [], _ => ([], false)
  | p :: rest, initCallFails =>
      if p = "builtin:tpcb-like" then ([MainEvent.initCalled], initCallFails)
      else initWorkload rest initCallFails

/-- Whether some workload path selects the builtin scenario. -/
def hasBuiltin (workloads : List String) : Bool :=
  workloads.any fun p => p == "builtin:tpcb-like"

/-- The event trace of main from the init check through worker startup
(src/main.go lines 134-139, then runBenchmark's worker loop at lines 191-205):
in init mode initWorkload runs first and an error exits via log.Fatal before
runBenchmark; otherwise the workers 0..numClients-1 are started in order. -/
def mainTrace (initMode : Bool) (workloads : List String) (initCallFails : Bool)
    (numClients : Nat) : List MainEvent :=
  if initMode then
    match initWorkload workloads initCallFails with
    | (evs, true) => evs ++ [MainEvent.fatalExit]
    | (evs, false) => evs ++ (List.range numClients).map MainEvent.workerStarted
  else (List.range numClients).map MainEvent.workerStarted

/-- Whether an event is the start of a worker. -/
def isWorkerStart : MainEvent → Bool
  | .workerStarted _ => true
  | _ => false

lemma initWorkload_eq (workloads : List String) (b : Bool) :
    initWorkload workloads b =
      if hasBuiltin workloads then ([MainEvent.initCalled], b) else ([], false) := by
  induction workloads with
  | nil => simp [initWorkload, hasBuiltin]
  | cons p rest ih =>
      by_cases hp : p = "builtin:tpcb-like"
      · simp [initWorkload, hasBuiltin, hp]
      · simp [initWorkload, hasBuiltin, hp, ih]

lemma count_init_in_workers (n : Nat) :
    ((List.range n).map MainEvent.workerStarted).count MainEvent.initCalled = 0 := by
  rw [List.count_eq_zero]
  simp

/-- C8 counterexample: with init mode requested but only a custom workload configured,
the dataset initializer is never invoked — zero calls, not exactly one. -/
theorem mainTrace_init_not_called :
    (mainTrace true ["custom.script"] false 2).count MainEvent.initCalled = 0
    ∧ (0 : Nat) ≠ 1 := by
  constructor
  · rfl
  · decide

/-- C8 (amended): in init mode the dataset initializer is invoked exactly once when some
workload path is builtin:tpcb-like and not at all otherwise; any invocation happens
before every worker start; and when the initializer fails (with a builtin workload
present) the run aborts, so no worker is ever started. -/
theorem mainTrace_init_properties (workloads : List String) (initCallFails : Bool)
    (numClients : Nat) :
    ((mainTrace true workloads initCallFails numClients).count MainEvent.initCalled
        = if hasBuiltin workloads then 1 else 0)
    ∧ (∃ pre post, mainTrace true workloads initCallFails numClients = pre ++ post
        ∧ (∀ e ∈ pre, isWorkerStart e = false)
        ∧ MainEvent.initCalled ∉ post)
    ∧ (initCallFails = true → hasBuiltin workloads = true →
        ∀ e ∈ mainTrace true workloads initCallFails numClients,
          isWorkerStart e = false) := by
  have hiw := initWorkload_eq workloads initCallFails
  by_cases hb : hasBuiltin workloads
  · cases initCallFails with
    | true =>
        have ht : mainTrace true workloads true numClients
            = [MainEvent.initCalled, MainEvent.fatalExit] := by
          unfold mainTrace
          rw [hiw, if_pos hb]
          rfl
        refine ⟨?_, ⟨[MainEvent.initCalled, MainEvent.fatalExit], [], ?_, ?_, ?_⟩, ?_⟩
        · rw [ht, if_pos hb]; rfl
        · rw [ht]; rfl
        · intro e he
          simp at he
          rcases he with rfl | rfl <;> rfl
        · simp
        · intro _ _ e he
          rw [ht] at he
          simp at he
          rcases he with rfl | rfl <;> rfl
    | false =>
        have ht : mainTrace true workloads false numClients
            = MainEvent.initCalled ::
                (List.range numClients).map MainEvent.workerStarted := by
          unfold mainTrace
          rw [hiw, if_pos hb]
          rfl
        refine ⟨?_, ⟨[MainEvent.initCalled],
          (List.range numClients).map MainEvent.workerStarted, ?_, ?_, ?_⟩, ?_⟩
        · rw [ht, if_pos hb, List.count_cons]
          simp [count_init_in_workers]
        · rw [ht]; rfl
        · intro e he
          simp at he
          subst he
          rfl
        · simp
        · intro hf; exact absurd hf (by simp)
  · have hnb : initWorkload workloads initCallFails = ([], false) := by
      rw [hiw, if_neg hb]
    have ht : mainTrace true workloads initCallFails numClients
        = (List.range numClients).map MainEvent.workerStarted := by
      unfold mainTrace
      rw [hnb]
      rfl
    refine ⟨?_, ⟨[], (List.range numClients).map MainEvent.workerStarted, ?_, ?_, ?_⟩, ?_⟩
    · rw [ht, if_neg hb, count_init_in_workers]
    · rw [ht]; rfl
    · intro e he; simp at he
    · simp
    · intro _ hbt; exact absurd hbt hb

theorem mainTrace_init_properties_witness :
    (mainTrace true ["builtin:tpcb-like"] true 3).count MainEvent.initCalled
      = if hasBuiltin ["builtin:tpcb-like"] then 1 else 0 :=
  (mainTrace_init_properties ["builtin:tpcb-like"] true 3).1

end Neobench
